import Mathlib

/-!
Shallow embedding of ElliptiCBn's orchestration layer
(`ElliptiCBn/run_all.py`) together with spec-modelled stand-ins for the
core routines (`get_macrocycles`, `get_ellipticity`, `plot_results` from
`ElliptiCBn/core.py`, which is not part of the sources at hand).

Conventions of the embedding:
* Python floats become `ℚ` (the claims under study are exact
  algebraic/structural facts, not rounding facts).
* The filesystem is an explicit association list from path strings to
  entries; every side-effecting step threads this state.  A raised Python
  exception is an `Except.error` value; state mutated before the raise is
  kept, as in Python.
* pandas data frames are a column-name list plus a row list.
-/

namespace ElliptiCBn

/-- A single spreadsheet cell: pandas object columns hold strings or numbers. -/
inductive Cell
  | str (s : String)
  | num (q : ℚ)
deriving DecidableEq

/-- A pandas DataFrame: ordered column names and rows of cells
(row `i`, column `j` is `rows[i][j]`, aligned with `cols[j]`). -/
structure DF where
  cols : List String
  rows : List (List Cell)
deriving DecidableEq

/-- Index of the first column with the given name, if any. -/
def findColIdx (name : String) : List String → Option Nat
  | [] => none
  | c :: rest => if c = name then some 0 else (findColIdx name rest).map (· + 1)

/-- `df[name] = v` on a pandas DataFrame with a scalar right-hand side:
overwrite the column if it exists, otherwise append it, putting `v`
in every row. -/
def DF.setCol (df : DF) (name : String) (v : Cell) : DF :=
  match findColIdx name df.cols with
  | some i => { cols := df.cols, rows := df.rows.map (fun r => r.set i v) }
  | none => { cols := df.cols ++ [name], rows := df.rows.map (fun r => r ++ [v]) }

/-- `pd.concat(dfs, ignore_index=True)` for frames that share one schema
(the only way it is called in `run_all`, line 175): the rows are stacked
in order. -/
def DF.concat (dfs : List DF) : DF :=
  { cols := ((dfs.map DF.cols).head?).getD [], rows := (dfs.map DF.rows).flatten }

/-- In-plane coordinates of one carbon of a ring.  The spec's projection of a
ring onto its dominant plane (§4.5) is modelled by working with the ring's
coordinates in that plane. -/
abbrev Pt := ℚ × ℚ

/-- A candidate macrocycle: the ordered in-plane coordinates of its carbons. -/
abbrev CarbonRing := List Pt

/-- Mean of the first coordinates of a point list. -/
def meanX (pts : List Pt) : ℚ := ((pts.map Prod.fst).sum) / pts.length

/-- Mean of the second coordinates of a point list. -/
def meanY (pts : List Pt) : ℚ := ((pts.map Prod.snd).sum) / pts.length

/-- Centered second moment of the first coordinate (variance along x). -/
def covXX (pts : List Pt) : ℚ :=
  ((pts.map (fun p => (p.1 - meanX pts) ^ 2)).sum) / pts.length

/-- Centered second moment of the second coordinate (variance along y). -/
def covYY (pts : List Pt) : ℚ :=
  ((pts.map (fun p => (p.2 - meanY pts) ^ 2)).sum) / pts.length

/-- Centered mixed second moment (covariance of x and y). -/
def covXY (pts : List Pt) : ℚ :=
  ((pts.map (fun p => (p.1 - meanX pts) * (p.2 - meanY pts))).sum) / pts.length

/-- Modelled from the spec: the ellipticity scalar of `get_ellipticity`
(§4.5), whose code (`ElliptiCBn/core.py`) is not in the sources.  The spec
leaves the exact functional form open and requires: 0 when the in-plane
principal variances are equal, strictly larger with elongation, and
scale-invariant.  With in-plane principal variances `l1 ≥ l2` (the
eigenvalues of the 2×2 second-moment matrix `[[a, b], [b, c]]`) we use
`((l1 - l2) / (l1 + l2))^2`, written square-root-free through
`(l1 - l2)^2 = (a - c)^2 + 4 b^2` and `l1 + l2 = a + c`. -/
def ringEllipticity (pts : List Pt) : ℚ :=
  ((covXX pts - covYY pts) ^ 2 + 4 * covXY pts ^ 2) / (covXX pts + covYY pts) ^ 2

/-- Anisotropic scaling of a point set along the first in-plane axis. -/
def scaleX (t : ℚ) (pts : List Pt) : List Pt := pts.map (fun p => (t * p.1, p.2))

/-- Modelled from the spec: what the Geometry Loader / Bond Graph Builder /
Macrocycle Extractor chain (§2, §4.1–§4.3 of the spec; `ElliptiCBn/core.py`,
not in the sources) derives from one input file: either the file is
malformed, or it yields a list of candidate rings. -/
inductive SrcContent
  | malformed
  | xyz (candidate_rings : List CarbonRing)
deriving DecidableEq

/-- What a path in the filesystem can hold. -/
inductive FileData
  | source (c : SrcContent)
  | table (df : DF)
  | html
  | blob (s : String)
deriving DecidableEq

/-- A directory entry. -/
inductive Entry
  | dir
  | file (d : FileData)
deriving DecidableEq

/-- The filesystem: an association list from paths to entries. -/
structure FS where
  entries : List (String × Entry)
deriving DecidableEq

/-- First entry for a path, if any. -/
def lookupEntry : List (String × Entry) → String → Option Entry
  | [], _ => none
  | e :: rest, p => if e.1 = p then some e.2 else lookupEntry rest p

/-- Drop every entry for a path. -/
def removeEntry : List (String × Entry) → String → List (String × Entry)
  | [], _ => []
  | e :: rest, p => if e.1 = p then removeEntry rest p else e :: removeEntry rest p

def FS.lookup (fs : FS) (p : String) : Option Entry := lookupEntry fs.entries p

/-- `os.path.exists`. -/
def FS.pathExists (fs : FS) (p : String) : Bool := (fs.lookup p).isSome

/-- `os.path.isdir`. -/
def FS.isDir (fs : FS) (p : String) : Bool :=
  match fs.lookup p with
  | some Entry.dir => true
  | _ => false

/-- Delete every entry for a path (the effect of a successful `os.remove`). -/
def FS.remove (fs : FS) (p : String) : FS := ⟨removeEntry fs.entries p⟩

/-- Write (create or replace) a file at a path. -/
def FS.write (fs : FS) (p : String) (d : FileData) : FS :=
  ⟨(p, Entry.file d) :: fs.entries⟩

/-- `os.mkdir` (call sites guard existence). -/
def FS.mkdir (fs : FS) (p : String) : FS := ⟨(p, Entry.dir) :: fs.entries⟩

/-- The Python exceptions that the embedded code can raise. -/
inductive PyErr
  | fileExists (msg : String)
  | valueError (msg : String)
  | invalidInput (msg : String)
  | isADirectory (path : String)
  | fileNotFound (path : String)
  | nameError (name : String)
deriving DecidableEq

instance {ε α : Type} [DecidableEq ε] [DecidableEq α] : DecidableEq (Except ε α) :=
  fun x y =>
    match x, y with
    | Except.error a, Except.error b =>
      if h : a = b then Decidable.isTrue (by rw [h]) else Decidable.isFalse (by simp [h])
    | Except.error _, Except.ok _ => Decidable.isFalse (by simp)
    | Except.ok _, Except.error _ => Decidable.isFalse (by simp)
    | Except.ok a, Except.ok b =>
      if h : a = b then Decidable.isTrue (by rw [h]) else Decidable.isFalse (by simp [h])

/-- `os.remove`: deletes a file; raises on a directory or a missing path. -/
def os_remove (fs : FS) (p : String) : Except PyErr FS :=
  match fs.lookup p with
  | some Entry.dir => Except.error (PyErr.isADirectory p)
  | some (Entry.file _) => Except.ok (fs.remove p)
  | none => Except.error (PyErr.fileNotFound p)

/-- `os.path.split(s)[0]` (POSIX): the part of `s` before its last slash,
with trailing slashes stripped unless the head is all slashes; `""` when
`s` has no slash.  (`run_all.py` line 20 only ever compares it with `""`.) -/
def os_path_split_fst (s : String) : String :=
  let revHead := s.data.reverse.dropWhile (fun c => c != '/')
  let stripped := revHead.dropWhile (fun c => c == '/')
  if revHead.isEmpty then ""
  else if stripped.isEmpty then String.mk revHead.reverse
  else String.mk stripped.reverse

/-- `os.path.basename` (POSIX): the part of `s` after its last slash. -/
def os_path_basename (s : String) : String :=
  String.mk (s.data.reverse.takeWhile (fun c => c != '/')).reverse

/-- Whether a character list starts with a slash. -/
def startsWithSlash : List Char → Bool
  | '/' :: _ => true
  | _ => false

/-- Whether a character list ends with a slash. -/
def endsWithSlash (l : List Char) : Bool := startsWithSlash l.reverse

/-- `os.path.join` (POSIX) for the two-argument uses in `run_all.py`:
an absolute second part wins; otherwise the parts are glued with exactly
one slash. -/
def os_path_join (d f : String) : String :=
  if startsWithSlash f.data then f
  else if d = "" then f
  else if endsWithSlash d.data then d ++ f
  else d ++ "/" ++ f

/-- The path `_file_check` resolves a candidate output name to
(`run_all.py` lines 20–21): a name with no directory component goes under
`output_dir`; a name that already has one is kept as given. -/
def resolvedName (output_dir some_file : String) : String :=
  if os_path_split_fst some_file = "" then os_path_join output_dir some_file
  else some_file

/-- `_file_check` (`run_all.py` lines 12–36): resolve the output path, then
if it already exists either raise `FileExistsError` (no overwrite) or
delete it. -/
def _file_check (some_file output_dir : String) (overwrite : Bool) (fs : FS) :
    Except PyErr (String × FS) :=
  if fs.pathExists (resolvedName output_dir some_file) then
    if !overwrite then
      Except.error (PyErr.fileExists
        ("output file '" ++ resolvedName output_dir some_file ++ "' already exists\n"))
    else
      match os_remove fs (resolvedName output_dir some_file) with
      | Except.error e => Except.error e
      | Except.ok fs2 => Except.ok (resolvedName output_dir some_file, fs2)
  else Except.ok (resolvedName output_dir some_file, fs)

/-- The keyword arguments of `run_all` (`run_all.py` lines 39–49). -/
structure RunConfig where
  bond_dist : ℚ
  aspect_ratio_filter : ℚ
  oxygen_dist_cutoff : ℚ
  min_num_carbons : Nat
  max_num_carbons : Nat
  min_cycle_cc_bond_length : ℚ
  max_cycle_cc_bond_length : ℚ
  summary_file : String
  output_dir : String
  overwrite : Bool
deriving DecidableEq

/-- The default keyword arguments of `run_all`. -/
def defaultConfig : RunConfig :=
  { bond_dist := 5 / 2
    aspect_ratio_filter := 3
    oxygen_dist_cutoff := 29 / 10
    min_num_carbons := 10
    max_num_carbons := 20
    min_cycle_cc_bond_length := 13 / 10
    max_cycle_cc_bond_length := 17 / 10
    summary_file := "summary.xlsx"
    output_dir := "."
    overwrite := false }

/-- Modelled from the spec: the Shape Filter (§4.4; `ElliptiCBn/core.py`,
not in the sources) keeps a ring iff its principal-axis aspect ratio is at
most `aspect_ratio_filter`, i.e. iff `l1 ≤ k · l2` with `k` the squared
threshold and `l1 ≥ l2` the in-plane principal variances.  Written
square-root-free: with `m = l1 + l2 = a + c` and
`(l1 - l2)^2 = (a - c)^2 + 4 b^2`, the test `l1 ≤ k·l2` is
`(l1 - l2)·(1 + k) ≤ m·(k - 1)`, squared on both (nonnegative) sides. -/
def aspectOK (cfg : RunConfig) (r : CarbonRing) : Bool :=
  let a := covXX r
  let c := covYY r
  let b := covXY r
  let k := cfg.aspect_ratio_filter ^ 2
  decide (((a - c) ^ 2 + 4 * b ^ 2) * (1 + k) ^ 2 ≤ ((a + c) * (k - 1)) ^ 2)

/-- Modelled from the spec: the ring acceptance test of the Macrocycle
Extractor and Shape Filter (§4.3 step 3, §4.4): the carbon count must lie
in `[min_num_carbons, max_num_carbons]` and the aspect-ratio filter must
pass. -/
def keepRing (cfg : RunConfig) (r : CarbonRing) : Bool :=
  decide (cfg.min_num_carbons ≤ r.length) &&
    decide (r.length ≤ cfg.max_num_carbons) && aspectOK cfg r

/-- The annotated atom table `get_macrocycles` returns: the source file it
was read from and its accepted rings. -/
structure AtomDf where
  source : String
  rings : List CarbonRing
deriving DecidableEq

/-- Modelled from the spec: `get_macrocycles` (§4.1–§4.4, §7;
`ElliptiCBn/core.py`, not in the sources).  A non-positive `bond_dist` is
`InvalidInputError` (§4.1); a missing or malformed file is
`InvalidInputError` (§7, fatal for that file); otherwise the candidate
rings of the file are filtered by ring size and shape. -/
def get_macrocycles (fs : FS) (filename : String) (cfg : RunConfig) :
    Except PyErr AtomDf :=
  if cfg.bond_dist ≤ 0 then
    Except.error (PyErr.invalidInput "bond_dist must be positive\n")
  else
    match fs.lookup filename with
    | some (Entry.file (FileData.source (SrcContent.xyz rs))) =>
        Except.ok { source := filename, rings := rs.filter (keepRing cfg) }
    | _ => Except.error (PyErr.invalidInput ("could not read atoms from " ++ filename))

/-- The figure object `plot_results` returns. -/
structure Fig where
  df : AtomDf
deriving DecidableEq

/-- Modelled from the spec (§4.5, §6; `ElliptiCBn/core.py`, not in the
sources): `get_ellipticity` returns a table with one row per accepted
ring — ring identifier, ring size, ellipticity value and source file
identifier (§6 requires ring identifier, ellipticity and source file; ring
size is one of the permitted diagnostics) — plus per-ring principal-axis
data.  The principal-axis vectors feed only the out-of-scope renderer
(§1, §6) and are modelled as unit tokens. -/
def get_ellipticity (atom_df : AtomDf) : DF × List Unit :=
  ({ cols := ["id", "size", "ellipticity", "file"]
     rows := atom_df.rings.enum.map (fun ir =>
       [Cell.num ir.1, Cell.num ir.2.length, Cell.num (ringEllipticity ir.2),
        Cell.str atom_df.source]) },
   atom_df.rings.map (fun _ => ()))

/-- Modelled from the spec: `plot_results` (§2, §6; `ElliptiCBn/core.py`,
not in the sources) renders the annotated atom table to the html file and
returns the figure.  Rendering detail is out of scope (§1). -/
def plot_results (atom_df : AtomDf) (html_file : String)
    (pca_vector_list : List Unit) (fs : FS) : FS × Fig :=
  (fs.write html_file FileData.html, { df := atom_df })

/-- One iteration of the `for filename in filenames` loop of `run_all`
(`run_all.py` lines 135–170): check the two per-file output paths, run
`get_macrocycles` and `get_ellipticity`, write the per-file table, plot,
then tag the in-memory table with the source filename for the summary. -/
def processFile (cfg : RunConfig) (fs : FS) (filename : String) :
    FS × Except PyErr (DF × Fig) :=
  let file_root := os_path_basename filename
  match _file_check (file_root ++ ".xlsx") cfg.output_dir cfg.overwrite fs with
  | Except.error e => (fs, Except.error e)
  | Except.ok (excel_file, fs1) =>
    match _file_check (file_root ++ ".html") cfg.output_dir cfg.overwrite fs1 with
    | Except.error e => (fs1, Except.error e)
    | Except.ok (html_file, fs2) =>
      match get_macrocycles fs2 filename cfg with
      | Except.error e => (fs2, Except.error e)
      | Except.ok atom_df =>
        let ep := get_ellipticity atom_df
        let fs3 := fs2.write excel_file (FileData.table ep.1)
        let ff := plot_results atom_df html_file ep.2 fs3
        (ff.1, Except.ok (ep.1.setCol "file" (Cell.str filename), ff.2))

/-- The whole `for filename in filenames` loop (`run_all.py` lines
133–170): per-file tables are collected in order; an exception aborts the
loop at once, keeping the state written so far; `fig` holds the figure of
the last processed file. -/
def runLoop (cfg : RunConfig) (fs : FS) :
    List String → FS × Except PyErr (List DF × Option Fig)
  | [] => (fs, Except.ok ([], none))
  | f :: rest =>
    match processFile cfg fs f with
    | (fs1, Except.error e) => (fs1, Except.error e)
    | (fs1, Except.ok dffig) =>
      match runLoop cfg fs1 rest with
      | (fs2, Except.error e) => (fs2, Except.error e)
      | (fs2, Except.ok dfsfig) =>
        (fs2, Except.ok (dffig.1 :: dfsfig.1,
          match dfsfig.2 with
          | some g => some g
          | none => some dffig.2))

/-- The `output_dir` handling of `run_all` (`run_all.py` lines 99–117). -/
def outputDirStep (cfg : RunConfig) (fs : FS) : Except PyErr FS :=
  if fs.pathExists cfg.output_dir then
    if !(fs.isDir cfg.output_dir) then
      if !cfg.overwrite then
        Except.error (PyErr.fileExists
          ("output directory " ++ cfg.output_dir ++ " already exists but is not a directory\n"))
      else
        match os_remove fs cfg.output_dir with
        | Except.error e => Except.error e
        | Except.ok fs1 => Except.ok (fs1.mkdir cfg.output_dir)
    else Except.ok fs
  else Except.ok (fs.mkdir cfg.output_dir)

/-- The `filename` argument of `run_all`: Python lets any value in; the
cases that matter are a string, an iterable of strings, and a
non-iterable value (`run_all.py` lines 86–93). -/
inductive FileArg
  | notIterable
  | str (s : String)
  | list (l : List String)
deriving DecidableEq

/-- `run_all.py` lines 86–93: a string is kept whole, another iterable is
unpacked, a non-iterable contributes nothing. -/
def toFilenames : FileArg → List String
  | FileArg.notIterable => []
  | FileArg.str s => [s]
  | FileArg.list l => l

/-- Python `str.split(sep)` for a one-character separator, on character
lists (structural, so that concrete runs reduce in the kernel). -/
def splitOnChar (sep : Char) : List Char → List (List Char)
  | [] => [[]]
  | c :: rest =>
    if c = sep then [] :: splitOnChar sep rest
    else
      match splitOnChar sep rest with
      | [] => [[c]]
      | h :: t => (c :: h) :: t

/-- `summary_file.split(".")[-1]` (`run_all.py` line 123). -/
def out_ext_of (summary_file : String) : String :=
  String.mk ((splitOnChar '.' summary_file.data).getLastD [])

/-- The summary-file pre-check of `run_all` (`run_all.py` lines 119–131):
only with more than one input file; the extension must be xlsx or csv and
the (resolved) summary path must pass `_file_check`.  Returns the resolved
summary path when the check ran. -/
def summaryStep (cfg : RunConfig) (n_files : Nat) (fs : FS) :
    Except PyErr (Option String × FS) :=
  if 1 < n_files then
    if out_ext_of cfg.summary_file = "xlsx" ∨ out_ext_of cfg.summary_file = "csv" then
      match _file_check cfg.summary_file cfg.output_dir cfg.overwrite fs with
      | Except.error e => Except.error e
      | Except.ok pfs => Except.ok (some pfs.1, pfs.2)
    else
      Except.error (PyErr.valueError
        ("summary_file " ++ cfg.summary_file ++ " must have a .xlsx or .csv extension\n"))
  else Except.ok (none, fs)

/-- `run_all` (`run_all.py` lines 39–186).  The returned value is the
figure of the last file (single-file case) or `none` (summary case, Python
`return None`).  Writing the summary as xlsx or as csv stores the same
table; the serialization byte format is out of scope.  A summary write
with `out_ext` unset would be a Python `NameError` (unreachable: the loop
yields one table per file). -/
def run_all (filename : FileArg) (cfg : RunConfig) (fs : FS) :
    FS × Except PyErr (Option Fig) :=
  let filenames := toFilenames filename
  if filenames.length = 0 then
    (fs, Except.error (PyErr.valueError "No file(s) specified\n"))
  else
    match outputDirStep cfg fs with
    | Except.error e => (fs, Except.error e)
    | Except.ok fs1 =>
      match summaryStep cfg filenames.length fs1 with
      | Except.error e => (fs1, Except.error e)
      | Except.ok (summaryPath, fs2) =>
        match runLoop cfg fs2 filenames with
        | (fs3, Except.error e) => (fs3, Except.error e)
        | (fs3, Except.ok (dfs, fig)) =>
          if 1 < dfs.length then
            match summaryPath with
            | some p => (fs3.write p (FileData.table (DF.concat dfs)), Except.ok none)
            | none => (fs3, Except.error (PyErr.nameError "out_ext"))
          else (fs3, Except.ok fig)

/-- The resolved path of the per-file spreadsheet of input `f`
(`run_all.py` lines 138–143). -/
def filePathXlsx (cfg : RunConfig) (f : String) : String :=
  resolvedName cfg.output_dir (os_path_basename f ++ ".xlsx")

/-- The resolved path of the per-file html rendering of input `f`
(`run_all.py` lines 145–148). -/
def filePathHtml (cfg : RunConfig) (f : String) : String :=
  resolvedName cfg.output_dir (os_path_basename f ++ ".html")

/-- The resolved path of the summary spreadsheet (`run_all.py` lines
129–131). -/
def summaryPathOf (cfg : RunConfig) : String :=
  resolvedName cfg.output_dir cfg.summary_file

/-- The per-file ellipticity table of a file with the given accepted
rings, as produced by `get_ellipticity` and written to the per-file
spreadsheet (`run_all.py` lines 160–161). -/
def perFileTable (f : String) (rings : List CarbonRing) : DF :=
  (get_ellipticity { source := f, rings := rings }).1

/-- The per-file table after `ellipticities["file"] = filename`
(`run_all.py` line 169): the copy that goes into the summary. -/
def taggedTable (f : String) (rings : List CarbonRing) : DF :=
  (perFileTable f rings).setCol "file" (Cell.str f)

/-- Two filesystems agree on every path satisfying `P`. -/
def EqOn (fs1 fs2 : FS) (P : String → Prop) : Prop :=
  ∀ p, P p → fs1.lookup p = fs2.lookup p

/-- Concrete ring with ten carbons (all at the origin: sizes are what
matter for acceptance in the concrete runs below). -/
def ringTen : CarbonRing := List.replicate 10 ((0 : ℚ), (0 : ℚ))

/-- Concrete regular polygon: the unit square, a regular 4-gon. -/
def squareRing : CarbonRing :=
  [((1 : ℚ), (0 : ℚ)), ((0 : ℚ), (1 : ℚ)), ((-1 : ℚ), (0 : ℚ)), ((0 : ℚ), (-1 : ℚ))]

/-- Concrete configuration: defaults with a fresh output directory. -/
def cfgOut : RunConfig := { defaultConfig with output_dir := "out" }

/-- Concrete configuration whose carbon-count window is empty
(`max_num_carbons < min_num_carbons`). -/
def cfgMinMax : RunConfig :=
  { defaultConfig with output_dir := "out", max_num_carbons := 5 }

/-- Concrete filesystem: a malformed input next to a well-formed one. -/
def fsBadGood : FS :=
  ⟨[("bad.xyz", Entry.file (FileData.source SrcContent.malformed)),
    ("good.xyz", Entry.file (FileData.source (SrcContent.xyz [ringTen])))]⟩

/-- Concrete filesystem: two well-formed inputs. -/
def fsTwoGood : FS :=
  ⟨[("a.xyz", Entry.file (FileData.source (SrcContent.xyz [ringTen]))),
    ("b.xyz", Entry.file (FileData.source (SrcContent.xyz [ringTen, ringTen])))]⟩

/-- Concrete filesystem: `fsTwoGood` plus an unrelated stray file. -/
def fsTwoGoodJunk : FS :=
  ⟨fsTwoGood.entries ++ [("junk.txt", Entry.file (FileData.blob "x"))]⟩

/-- Concrete filesystem: one well-formed input. -/
def fsOneGood : FS :=
  ⟨[("a.xyz", Entry.file (FileData.source (SrcContent.xyz [ringTen])))]⟩

/-- Concrete filesystem: an already-existing output file. -/
def fsExisting : FS :=
  ⟨[("out/report.xlsx", Entry.file (FileData.blob "old"))]⟩

/-! ## Basic lemmas about the filesystem model and path helpers -/

theorem lookup_write (fs : FS) (p q : String) (d : FileData) :
    (fs.write p d).lookup q = if q = p then some (Entry.file d) else fs.lookup q := by
  simp only [FS.write, FS.lookup, lookupEntry]
  by_cases h : p = q
  · subst h
    simp
  · rw [if_neg h, if_neg (fun hh => h hh.symm)]

theorem lookup_mkdir (fs : FS) (p q : String) :
    (fs.mkdir p).lookup q = if q = p then some Entry.dir else fs.lookup q := by
  simp only [FS.mkdir, FS.lookup, lookupEntry]
  by_cases h : p = q
  · subst h
    simp
  · rw [if_neg h, if_neg (fun hh => h hh.symm)]

theorem lookupEntry_removeEntry (l : List (String × Entry)) (p q : String) :
    lookupEntry (removeEntry l p) q = if q = p then none else lookupEntry l q := by
  induction l with
  | nil => simp [removeEntry, lookupEntry]
  | cons e rest ih =>
    simp only [removeEntry, lookupEntry]
    by_cases he : e.1 = p
    · rw [if_pos he, ih]
      by_cases hq : q = p
      · rw [if_pos hq, if_pos hq]
      · rw [if_neg hq, if_neg hq, if_neg (he ▸ fun hh => hq hh.symm)]
    · rw [if_neg he]
      simp only [lookupEntry]
      by_cases heq : e.1 = q
      · rw [if_pos heq, if_pos heq, if_neg (fun hh => he (by rw [heq, hh]))]
      · rw [if_neg heq, if_neg heq, ih]

theorem lookup_remove (fs : FS) (p q : String) :
    (fs.remove p).lookup q = if q = p then none else fs.lookup q := by
  simp [FS.remove, FS.lookup, lookupEntry_removeEntry]

theorem pathExists_iff (fs : FS) (p : String) :
    fs.pathExists p = true ↔ (fs.lookup p).isSome := by
  simp [FS.pathExists]

/-- `os.path.split(s)[0]` is empty exactly when `s` has no slash, i.e. no
directory component. -/
theorem os_path_split_fst_eq_empty_iff (s : String) :
    os_path_split_fst s = "" ↔ '/' ∉ s.data := by
  unfold os_path_split_fst
  by_cases hdw : s.data.reverse.dropWhile (fun c => c != '/') = []
  · have hnos : '/' ∉ s.data := by
      intro hmem
      have hmem' : '/' ∈ s.data.reverse := List.mem_reverse.mpr hmem
      have := List.dropWhile_eq_nil_iff.mp hdw '/' hmem'
      simp at this
    simp only [hdw, List.isEmpty_nil, if_true]
    exact iff_of_true trivial hnos
  · have hslash : '/' ∈ s.data := by
      by_contra hmem
      refine hdw (List.dropWhile_eq_nil_iff.mpr ?_)
      intro x hx
      have hxs : x ∈ s.data := List.mem_reverse.mp hx
      simp only [bne_iff_ne, ne_eq]
      intro hxe
      exact hmem (hxe ▸ hxs)
    have hne : (s.data.reverse.dropWhile (fun c => c != '/')).isEmpty = false := by
      rw [List.isEmpty_eq_false]
      exact hdw
    simp only [hne, Bool.false_eq_true, if_false]
    refine iff_of_false ?_ (fun hmem => hmem hslash)
    by_cases hstr :
        ((s.data.reverse.dropWhile (fun c => c != '/')).dropWhile (fun c => c == '/')).isEmpty
    · simp only [hstr, if_true]
      intro h
      have hdata := congrArg String.data h
      simp only at hdata
      exact hdw (by simpa using hdata)
    · simp only [hstr, Bool.false_eq_true, if_false]
      intro h
      have hdata := congrArg String.data h
      simp only at hdata
      have hnil :
          (s.data.reverse.dropWhile (fun c => c != '/')).dropWhile (fun c => c == '/') = [] := by
        simpa using hdata
      simp [hnil] at hstr

/-! ## Lemmas about `_file_check` -/

theorem fileCheck_not_exists (n d : String) (ow : Bool) (fs : FS)
    (h : fs.pathExists (resolvedName d n) = false) :
    _file_check n d ow fs = Except.ok (resolvedName d n, fs) := by
  simp [_file_check, h]

theorem fileCheck_exists_no_overwrite (n d : String) (fs : FS)
    (h : fs.pathExists (resolvedName d n) = true) :
    _file_check n d false fs = Except.error
      (PyErr.fileExists ("output file '" ++ resolvedName d n ++ "' already exists\n")) := by
  simp [_file_check, h]

theorem fileCheck_exists_overwrite_file (n d : String) (fs : FS) (fd : FileData)
    (h : fs.lookup (resolvedName d n) = some (Entry.file fd)) :
    _file_check n d true fs =
      Except.ok (resolvedName d n, fs.remove (resolvedName d n)) := by
  have hex : fs.pathExists (resolvedName d n) = true := by simp [FS.pathExists, h]
  simp [_file_check, hex, os_remove, h]

/-! ## Claim theorems: C8, C9, C10, C4 -/

/-- C8: for every output file path that already exists (as a file) when it
is resolved by `_file_check` — the resolver `run_all` uses for the per-file
.xlsx, the per-file .html and the summary file — `overwrite = False` raises
`FileExistsError`, and `overwrite = True` deletes the existing file before
the new output is written. -/
theorem fileCheck_overwrite_policy (some_file output_dir : String) (fs : FS) (fd : FileData)
    (hex : fs.lookup (resolvedName output_dir some_file) = some (Entry.file fd)) :
    _file_check some_file output_dir false fs =
      Except.error (PyErr.fileExists
        ("output file '" ++ resolvedName output_dir some_file ++ "' already exists\n")) ∧
    _file_check some_file output_dir true fs =
      Except.ok (resolvedName output_dir some_file,
        fs.remove (resolvedName output_dir some_file)) := by
  constructor
  · exact fileCheck_exists_no_overwrite _ _ _ (by simp [FS.pathExists, hex])
  · exact fileCheck_exists_overwrite_file _ _ _ _ hex

theorem fileCheck_overwrite_policy_witness :
    fsExisting.lookup (resolvedName "out" "report.xlsx") =
      some (Entry.file (FileData.blob "old")) ∧
    _file_check "report.xlsx" "out" false fsExisting =
      Except.error (PyErr.fileExists
        ("output file '" ++ resolvedName "out" "report.xlsx" ++ "' already exists\n")) ∧
    _file_check "report.xlsx" "out" true fsExisting =
      Except.ok (resolvedName "out" "report.xlsx",
        fsExisting.remove (resolvedName "out" "report.xlsx")) := by
  have hex : fsExisting.lookup (resolvedName "out" "report.xlsx") =
      some (Entry.file (FileData.blob "old")) := by decide
  exact ⟨hex, (fileCheck_overwrite_policy "report.xlsx" "out" fsExisting _ hex).1,
    (fileCheck_overwrite_policy "report.xlsx" "out" fsExisting _ hex).2⟩

/-- C9: `_file_check` puts a bare output filename (one with no directory
component, i.e. no slash) under `output_dir`, and returns a filename that
already has a directory component unchanged, ignoring `output_dir`. -/
theorem fileCheck_placement (some_file output_dir : String) (overwrite : Bool) (fs : FS)
    (hnew : fs.pathExists (resolvedName output_dir some_file) = false) :
    ('/' ∉ some_file.data →
      _file_check some_file output_dir overwrite fs =
        Except.ok (os_path_join output_dir some_file, fs)) ∧
    ('/' ∈ some_file.data →
      _file_check some_file output_dir overwrite fs = Except.ok (some_file, fs)) := by
  constructor
  · intro hns
    have hres : resolvedName output_dir some_file = os_path_join output_dir some_file := by
      simp [resolvedName, (os_path_split_fst_eq_empty_iff some_file).mpr hns]
    have h0 := fileCheck_not_exists some_file output_dir overwrite fs hnew
    rw [hres] at h0
    exact h0
  · intro hs
    have hne : ¬ os_path_split_fst some_file = "" := by
      intro hh
      exact (os_path_split_fst_eq_empty_iff some_file).mp hh hs
    have hres : resolvedName output_dir some_file = some_file := by
      simp [resolvedName, hne]
    have h0 := fileCheck_not_exists some_file output_dir overwrite fs hnew
    rw [hres] at h0
    exact h0

theorem fileCheck_placement_witness :
    (fsExisting.pathExists (resolvedName "out" "fresh.xlsx") = false ∧
      _file_check "fresh.xlsx" "out" false fsExisting =
        Except.ok (os_path_join "out" "fresh.xlsx", fsExisting)) ∧
    (fsExisting.pathExists (resolvedName "out" "./fresh.xlsx") = false ∧
      _file_check "./fresh.xlsx" "out" false fsExisting =
        Except.ok ("./fresh.xlsx", fsExisting)) := by
  refine ⟨⟨by decide, ?_⟩, ⟨by decide, ?_⟩⟩
  · exact (fileCheck_placement "fresh.xlsx" "out" false fsExisting (by decide)).1 (by decide)
  · exact (fileCheck_placement "./fresh.xlsx" "out" false fsExisting (by decide)).2 (by decide)

/-- C10: `run_all` treats a single string filename as a one-element batch,
and raises `ValueError` — with the filesystem untouched, hence before any
output is created — when the argument is not iterable or is an iterable
yielding no filenames. -/
theorem run_all_filename_argument (cfg : RunConfig) (fs : FS) (s : String) :
    run_all FileArg.notIterable cfg fs =
      (fs, Except.error (PyErr.valueError "No file(s) specified\n")) ∧
    run_all (FileArg.list []) cfg fs =
      (fs, Except.error (PyErr.valueError "No file(s) specified\n")) ∧
    run_all (FileArg.str s) cfg fs = run_all (FileArg.list [s]) cfg fs := by
  refine ⟨?_, ?_, rfl⟩ <;> simp [run_all, toFilenames]

/-- C4 (amended): `run_all` performs no configuration validation at
startup.  In particular, a structurally invalid carbon-count window
(`max_num_carbons < min_num_carbons`) is not fatal: whenever
`get_macrocycles` succeeds, every candidate ring is rejected by the size
filter, so the per-file ellipticity table is simply empty. -/
theorem invalid_window_not_fatal (cfg : RunConfig) (fs : FS) (f : String) (df : AtomDf)
    (hcfg : cfg.max_num_carbons < cfg.min_num_carbons)
    (h : get_macrocycles fs f cfg = Except.ok df) :
    df.rings = [] ∧ (get_ellipticity df).1.rows = [] := by
  unfold get_macrocycles at h
  split at h
  · exact absurd h (by simp)
  · split at h
    · next rs heq =>
      have hdf : df = { source := f, rings := rs.filter (keepRing cfg) } := by
        cases h
        rfl
      have hnil : rs.filter (keepRing cfg) = [] := by
        rw [List.filter_eq_nil_iff]
        intro r hr
        simp only [keepRing, Bool.and_eq_true, decide_eq_true_eq]
        rintro ⟨⟨h1, h2⟩, -⟩
        omega
      constructor
      · rw [hdf, hnil]
      · rw [hdf]
        simp [get_ellipticity, hnil]
    · exact absurd h (by simp)

theorem invalid_window_not_fatal_witness :
    cfgMinMax.max_num_carbons < cfgMinMax.min_num_carbons ∧
    get_macrocycles fsOneGood "a.xyz" cfgMinMax =
      Except.ok { source := "a.xyz", rings := [] } ∧
    ({ source := "a.xyz", rings := [] } : AtomDf).rings = [] ∧
    (get_ellipticity { source := "a.xyz", rings := [] }).1.rows = [] := by
  have hm : get_macrocycles fsOneGood "a.xyz" cfgMinMax =
      Except.ok { source := "a.xyz", rings := [] } := by
    norm_num +decide [get_macrocycles, FS.lookup, lookupEntry, fsOneGood, cfgMinMax,
      defaultConfig, keepRing, aspectOK, covXX, covYY, covXY, meanX, meanY, ringTen,
      List.filter]
  exact ⟨by decide, hm,
    (invalid_window_not_fatal cfgMinMax fsOneGood "a.xyz" _ (by decide) hm).1,
    (invalid_window_not_fatal cfgMinMax fsOneGood "a.xyz" _ (by decide) hm).2⟩

/-- C4 (counterexample): with `max_num_carbons < min_num_carbons`
(`cfgMinMax`) and one valid input file, `run_all` does not fail at
startup — it completes with `Except.ok` and creates output (the per-file
spreadsheet exists afterwards), contradicting "fails at startup, before
any input file is processed or any output is produced". -/
theorem run_all_invalid_config_counterexample :
    (run_all (FileArg.str "a.xyz") cfgMinMax fsOneGood).2 =
      Except.ok (some { df := { source := "a.xyz", rings := [] } }) ∧
    (run_all (FileArg.str "a.xyz") cfgMinMax fsOneGood).1.pathExists
      (filePathXlsx cfgMinMax "a.xyz") = true := by
  constructor <;>
  norm_num +decide [run_all, runLoop, processFile, _file_check, resolvedName,
    os_path_split_fst, os_path_basename, os_path_join, startsWithSlash, endsWithSlash,
    splitOnChar, out_ext_of, summaryStep, outputDirStep, os_remove, get_macrocycles,
    get_ellipticity, plot_results, toFilenames, FS.pathExists, FS.lookup, FS.isDir,
    FS.mkdir, FS.write, FS.remove, lookupEntry, removeEntry, fsOneGood, cfgMinMax,
    defaultConfig, keepRing, aspectOK, covXX, covYY, covXY, meanX, meanY, ringTen,
    ringEllipticity, DF.setCol, DF.concat, List.filter, filePathXlsx]

/-! ## Claim C1: error propagation across the batch -/

/-- C1 (amended): an error raised while processing one file aborts the
batch loop of `run_all` at that file: the error is propagated as the
result, the filesystem is left exactly as the failing file's processing
left it, and in particular none of the remaining files is processed or
produces any output (files processed before the failure keep their
already-written per-file outputs, since the state `fsp` reached after the
prefix is the state the failing step starts from). -/
theorem runLoop_error_aborts (cfg : RunConfig) (fs fsp fse : FS) (pre : List String)
    (f : String) (rest : List String) (r : List DF × Option Fig) (e : PyErr)
    (hpre : runLoop cfg fs pre = (fsp, Except.ok r))
    (hf : processFile cfg fsp f = (fse, Except.error e)) :
    runLoop cfg fs (pre ++ f :: rest) = (fse, Except.error e) := by
  induction pre generalizing fs r with
  | nil =>
    simp only [runLoop, Prod.mk.injEq] at hpre
    obtain ⟨rfl, -⟩ := hpre
    simp only [List.nil_append, runLoop, hf]
  | cons p ps ih =>
    simp only [runLoop] at hpre
    cases hp : processFile cfg fs p with
    | mk fs1 res =>
      rw [hp] at hpre
      cases res with
      | error e' => simp at hpre
      | ok dffig =>
        simp only at hpre
        cases hrest : runLoop cfg fs1 ps with
        | mk fs2 res2 =>
          rw [hrest] at hpre
          cases res2 with
          | error e2 => simp at hpre
          | ok dd =>
            simp only [Prod.mk.injEq] at hpre
            obtain ⟨rfl, -⟩ := hpre
            rw [List.cons_append]
            simp only [runLoop, hp]
            rw [ih fs1 dd hrest]

/-- C1 (counterexample): a batch of two files where the first is
malformed: `run_all` aborts with the first file's error and the second
(valid) file's per-file table is never produced — the batch is not
continued for the remaining files. -/
theorem run_all_batch_abort_counterexample :
    (run_all (FileArg.list ["bad.xyz", "good.xyz"]) cfgOut fsBadGood).2 =
      Except.error (PyErr.invalidInput "could not read atoms from bad.xyz") ∧
    (run_all (FileArg.list ["bad.xyz", "good.xyz"]) cfgOut fsBadGood).1.pathExists
      (filePathXlsx cfgOut "good.xyz") = false := by
  constructor <;>
  norm_num +decide [run_all, runLoop, processFile, _file_check, resolvedName,
    os_path_split_fst, os_path_basename, os_path_join, startsWithSlash, endsWithSlash,
    splitOnChar, out_ext_of, summaryStep, outputDirStep, os_remove, get_macrocycles,
    get_ellipticity, plot_results, toFilenames, FS.pathExists, FS.lookup, FS.isDir,
    FS.mkdir, FS.write, FS.remove, lookupEntry, removeEntry, fsBadGood, cfgOut,
    defaultConfig, keepRing, aspectOK, covXX, covYY, covXY, meanX, meanY, ringTen,
    ringEllipticity, DF.setCol, DF.concat, List.filter, filePathXlsx]

theorem runLoop_error_aborts_witness :
    runLoop cfgOut fsBadGood [] = (fsBadGood, Except.ok ([], none)) ∧
    processFile cfgOut fsBadGood "bad.xyz" =
      (fsBadGood, Except.error (PyErr.invalidInput "could not read atoms from bad.xyz")) ∧
    runLoop cfgOut fsBadGood ([] ++ "bad.xyz" :: ["good.xyz"]) =
      (fsBadGood, Except.error (PyErr.invalidInput "could not read atoms from bad.xyz")) := by
  have h1 : runLoop cfgOut fsBadGood [] = (fsBadGood, Except.ok ([], none)) := rfl
  have h2 : processFile cfgOut fsBadGood "bad.xyz" =
      (fsBadGood, Except.error (PyErr.invalidInput "could not read atoms from bad.xyz")) := by
    norm_num +decide [processFile, _file_check, resolvedName, os_path_split_fst,
      os_path_basename, os_path_join, startsWithSlash, endsWithSlash, os_remove,
      get_macrocycles, FS.pathExists, FS.lookup, lookupEntry, fsBadGood, cfgOut,
      defaultConfig]
  exact ⟨h1, h2,
    runLoop_error_aborts cfgOut fsBadGood fsBadGood fsBadGood [] "bad.xyz" ["good.xyz"]
      ([], none) (PyErr.invalidInput "could not read atoms from bad.xyz") h1 h2⟩

/-! ## Shape of the per-file tables and of the loop results -/

theorem string_data_inj {a b : String} (h : a.data = b.data) : a = b := by
  cases a with
  | mk la =>
    cases b with
    | mk lb => exact congrArg String.mk h

theorem os_remove_ok_inv (fs : FS) (p : String) (g : FS)
    (h : os_remove fs p = Except.ok g) : g = fs.remove p := by
  unfold os_remove at h
  split at h <;> simp_all

theorem fileCheck_ok_inv (n d : String) (ow : Bool) (fs : FS) (pr : String × FS)
    (h : _file_check n d ow fs = Except.ok pr) :
    pr.1 = resolvedName d n ∧
      (pr.2 = fs ∨ pr.2 = fs.remove (resolvedName d n)) := by
  simp only [_file_check] at h
  by_cases hex : fs.pathExists (resolvedName d n) = true
  · rw [if_pos hex] at h
    cases ow with
    | false => simp at h
    | true =>
      simp only [Bool.not_true, Bool.false_eq_true, if_false] at h
      cases hrem : os_remove fs (resolvedName d n) with
      | error e => rw [hrem] at h; simp at h
      | ok g =>
        rw [hrem] at h
        simp only [Except.ok.injEq] at h
        subst h
        exact ⟨rfl, Or.inr (os_remove_ok_inv fs _ g hrem)⟩
  · rw [if_neg hex] at h
    simp only [Except.ok.injEq] at h
    subst h
    exact ⟨rfl, Or.inl rfl⟩

theorem not_mem_of_basename (f : String) : '/' ∉ (os_path_basename f).data := by
  unfold os_path_basename
  intro hmem
  simp only [List.mem_reverse] at hmem
  have := List.mem_takeWhile_imp hmem
  simp at this

theorem startsWithSlash_eq_false {l : List Char} (h : '/' ∉ l) :
    startsWithSlash l = false := by
  cases l with
  | nil => rfl
  | cons c rest =>
    unfold startsWithSlash
    split
    · next heq =>
      exfalso
      exact h (by simp_all)
    · rfl

theorem string_append_right_inj {d x y : String} (h : d ++ x = d ++ y) : x = y := by
  apply string_data_inj
  have hd := congrArg String.data h
  simp only [String.data_append] at hd
  exact List.append_cancel_left hd

theorem os_path_join_inj_right (d : String) {x y : String}
    (hx : '/' ∉ x.data) (hy : '/' ∉ y.data)
    (h : os_path_join d x = os_path_join d y) : x = y := by
  unfold os_path_join at h
  rw [startsWithSlash_eq_false hx, startsWithSlash_eq_false hy] at h
  simp only [Bool.false_eq_true, if_false] at h
  by_cases hd : d = ""
  · simpa [hd] using h
  · rw [if_neg hd, if_neg hd] at h
    by_cases hsl : endsWithSlash d.data
    · rw [if_pos hsl, if_pos hsl] at h
      exact string_append_right_inj h
    · rw [if_neg hsl, if_neg hsl] at h
      rw [String.append_assoc, String.append_assoc] at h
      exact string_append_right_inj (string_append_right_inj h)

theorem no_slash_append {a b : String} (ha : '/' ∉ a.data) (hb : '/' ∉ b.data) :
    '/' ∉ (a ++ b).data := by
  rw [String.data_append]
  intro hmem
  cases List.mem_append.mp hmem with
  | inl hh => exact ha hh
  | inr hh => exact hb hh

theorem resolvedName_of_no_slash (d : String) {n : String} (h : '/' ∉ n.data) :
    resolvedName d n = os_path_join d n := by
  simp [resolvedName, (os_path_split_fst_eq_empty_iff n).mpr h]

theorem filePathXlsx_ne_html (cfg : RunConfig) (f : String) :
    filePathXlsx cfg f ≠ filePathHtml cfg f := by
  have hb := not_mem_of_basename f
  have hxdata : '/' ∉ (".xlsx" : String).data := by decide
  have hhdata : '/' ∉ (".html" : String).data := by decide
  have hx := no_slash_append hb hxdata
  have hh := no_slash_append hb hhdata
  unfold filePathXlsx filePathHtml
  rw [resolvedName_of_no_slash _ hx, resolvedName_of_no_slash _ hh]
  intro h
  have := os_path_join_inj_right cfg.output_dir hx hh h
  have h2 := string_append_right_inj this
  exact absurd (congrArg String.data h2) (by decide)

theorem perFileTable_cols (f : String) (rings : List CarbonRing) :
    (perFileTable f rings).cols = ["id", "size", "ellipticity", "file"] := rfl

theorem taggedTable_cols (f : String) (rings : List CarbonRing) :
    (taggedTable f rings).cols = ["id", "size", "ellipticity", "file"] := by
  simp [taggedTable, DF.setCol, perFileTable_cols, findColIdx, get_ellipticity, perFileTable]

theorem perFileTable_rows_length (f : String) (rings : List CarbonRing) :
    (perFileTable f rings).rows.length = rings.length := by
  simp [perFileTable, get_ellipticity]

theorem perFileTable_row_file (f : String) (rings : List CarbonRing) :
    ∀ row ∈ (perFileTable f rings).rows, row[3]? = some (Cell.str f) := by
  intro row hrow
  simp only [perFileTable, get_ellipticity, List.mem_map] at hrow
  obtain ⟨ir, -, rfl⟩ := hrow
  rfl

theorem taggedTable_row_file (f : String) (rings : List CarbonRing) :
    ∀ row ∈ (taggedTable f rings).rows, row[3]? = some (Cell.str f) := by
  intro row hrow
  simp only [taggedTable, DF.setCol, perFileTable_cols] at hrow
  have hidx : findColIdx "file" ["id", "size", "ellipticity", "file"] = some 3 := by decide
  rw [hidx] at hrow
  simp only [List.mem_map] at hrow
  obtain ⟨base, hbase, rfl⟩ := hrow
  have hlen : base.length = 4 := by
    simp only [perFileTable, get_ellipticity, List.mem_map] at hbase
    obtain ⟨ir, -, rfl⟩ := hbase
    rfl
  rw [List.getElem?_set_self (by omega)]

/-- What a successful `processFile` produces: the tagged per-file table,
the figure, and the per-file spreadsheet written at its resolved path. -/
theorem processFile_ok_spec (cfg : RunConfig) (fs fs' : FS) (f : String) (df : DF) (fig : Fig)
    (h : processFile cfg fs f = (fs', Except.ok (df, fig))) :
    ∃ rings, df = taggedTable f rings ∧
      fig = { df := { source := f, rings := rings } } ∧
      fs'.lookup (filePathXlsx cfg f) =
        some (Entry.file (FileData.table (perFileTable f rings))) := by
  simp only [processFile] at h
  cases hc1 : _file_check (os_path_basename f ++ ".xlsx") cfg.output_dir cfg.overwrite fs with
  | error e => rw [hc1] at h; simp at h
  | ok pr1 =>
    rw [hc1] at h
    obtain ⟨excel_file, fs1⟩ := pr1
    simp only at h
    cases hc2 : _file_check (os_path_basename f ++ ".html") cfg.output_dir cfg.overwrite fs1 with
    | error e => rw [hc2] at h; simp at h
    | ok pr2 =>
      rw [hc2] at h
      obtain ⟨html_file, fs2⟩ := pr2
      simp only at h
      cases hm : get_macrocycles fs2 f cfg with
      | error e => rw [hm] at h; simp at h
      | ok atom_df =>
        rw [hm] at h
        simp only [plot_results, Prod.mk.injEq] at h
        obtain ⟨hfs', hok⟩ := h
        simp only [Except.ok.injEq, Prod.mk.injEq] at hok
        obtain ⟨hdf, hfig⟩ := hok
        have hsource : atom_df.source = f ∧ ∃ rs : List CarbonRing,
            atom_df.rings = rs.filter (keepRing cfg) := by
          unfold get_macrocycles at hm
          split at hm
          · simp at hm
          · split at hm
            · next rs heq =>
              simp only [Except.ok.injEq] at hm
              subst hm
              exact ⟨rfl, rs, rfl⟩
            · simp at hm
        obtain ⟨hsrc, rs, hrings⟩ := hsource
        refine ⟨atom_df.rings, ?_, ?_, ?_⟩
        · rw [← hdf]
          have : atom_df = { source := f, rings := atom_df.rings } := by
            cases atom_df
            simp_all
          rw [taggedTable, perFileTable, ← this]
        · rw [← hfig]
          cases atom_df
          simp_all
        · rw [← hfs']
          have hx1 : excel_file = filePathXlsx cfg f :=
            (fileCheck_ok_inv _ _ _ _ _ hc1).1
          have hx2 : html_file = filePathHtml cfg f :=
            (fileCheck_ok_inv _ _ _ _ _ hc2).1
          rw [hx1, hx2, lookup_write, if_neg (filePathXlsx_ne_html cfg f),
            lookup_write, if_pos rfl]
          have : atom_df = { source := f, rings := atom_df.rings } := by
            cases atom_df
            simp_all
          rw [perFileTable, ← this]

/-- What a successful loop produces: one tagged table per input file, in
order. -/
theorem runLoop_ok_spec (cfg : RunConfig) (fs fs' : FS) (files : List String)
    (dfs : List DF) (fig : Option Fig)
    (h : runLoop cfg fs files = (fs', Except.ok (dfs, fig))) :
    List.Forall₂ (fun f df => ∃ rings, df = taggedTable f rings) files dfs := by
  induction files generalizing fs fs' dfs fig with
  | nil =>
    simp only [runLoop, Prod.mk.injEq, Except.ok.injEq] at h
    obtain ⟨-, rfl, -⟩ := h
    exact List.Forall₂.nil
  | cons f rest ih =>
    simp only [runLoop] at h
    cases hp : processFile cfg fs f with
    | mk fs1 res =>
      rw [hp] at h
      cases res with
      | error e => simp at h
      | ok dffig =>
        simp only at h
        cases hr : runLoop cfg fs1 rest with
        | mk fs2 res2 =>
          rw [hr] at h
          cases res2 with
          | error e2 => simp at h
          | ok dd =>
            simp only [Prod.mk.injEq, Except.ok.injEq] at h
            obtain ⟨-, rfl, -⟩ := h
            obtain ⟨rings, hdf, -, -⟩ :=
              processFile_ok_spec cfg fs fs1 f dffig.1 dffig.2 (by rw [hp])
            exact List.Forall₂.cons ⟨rings, hdf⟩ (ih fs1 fs2 dd.1 dd.2 (by rw [hr]))

/-- C5: for every processed input file, the per-file ellipticity table
written to the resolved per-file spreadsheet path has one row per
accepted ring and carries the columns ring identifier ("id"),
ellipticity value ("ellipticity") and source file identifier ("file");
every row's file cell names the source file. -/
theorem processFile_written_table (cfg : RunConfig) (fs fs' : FS) (f : String)
    (df : DF) (fig : Fig)
    (h : processFile cfg fs f = (fs', Except.ok (df, fig))) :
    ∃ rings,
      fs'.lookup (filePathXlsx cfg f) =
        some (Entry.file (FileData.table (perFileTable f rings))) ∧
      (perFileTable f rings).cols = ["id", "size", "ellipticity", "file"] ∧
      (perFileTable f rings).rows.length = rings.length ∧
      (∀ row ∈ (perFileTable f rings).rows, row[3]? = some (Cell.str f)) := by
  obtain ⟨rings, -, -, hlook⟩ := processFile_ok_spec cfg fs fs' f df fig h
  exact ⟨rings, hlook, perFileTable_cols f rings, perFileTable_rows_length f rings,
    perFileTable_row_file f rings⟩

/-! ## Inverting a successful `run_all` with more than one file -/

theorem forall₂_mem_right {α β : Type} {R : α → β → Prop} {l1 : List α} {l2 : List β} {b : β}
    (h : List.Forall₂ R l1 l2) (hb : b ∈ l2) : ∃ a ∈ l1, R a b := by
  induction h with
  | nil => simp at hb
  | cons hr hrest ih =>
    rcases List.mem_cons.mp hb with rfl | hb'
    · exact ⟨_, List.mem_cons_self _ _, hr⟩
    · obtain ⟨a, ha, har⟩ := ih hb'
      exact ⟨a, List.mem_cons_of_mem _ ha, har⟩

theorem summaryStep_ok_inv (cfg : RunConfig) (n : Nat) (fs : FS) (pr : Option String × FS)
    (hn : 1 < n) (h : summaryStep cfg n fs = Except.ok pr) :
    pr.1 = some (summaryPathOf cfg) ∧
    _file_check cfg.summary_file cfg.output_dir cfg.overwrite fs =
      Except.ok (summaryPathOf cfg, pr.2) := by
  simp only [summaryStep] at h
  rw [if_pos hn] at h
  split at h
  · cases hf : _file_check cfg.summary_file cfg.output_dir cfg.overwrite fs with
    | error e => rw [hf] at h; simp at h
    | ok pfs =>
      rw [hf] at h
      simp only [Except.ok.injEq] at h
      subst h
      cases pfs with
      | mk a b =>
        have ha : a = resolvedName cfg.output_dir cfg.summary_file :=
          (fileCheck_ok_inv _ _ _ _ _ hf).1
        constructor
        · simpa [summaryPathOf] using congrArg some ha
        · rw [ha]
          rfl
  · simp at h

theorem run_all_ok_inv (files : List String) (cfg : RunConfig) (fs fs' : FS)
    (o : Option Fig) (hn : 1 < files.length)
    (h : run_all (FileArg.list files) cfg fs = (fs', Except.ok o)) :
    ∃ fs1 fs2 fs3 dfs fig,
      outputDirStep cfg fs = Except.ok fs1 ∧
      summaryStep cfg files.length fs1 = Except.ok (some (summaryPathOf cfg), fs2) ∧
      runLoop cfg fs2 files = (fs3, Except.ok (dfs, fig)) ∧
      o = none ∧ dfs.length = files.length ∧
      fs' = fs3.write (summaryPathOf cfg) (FileData.table (DF.concat dfs)) := by
  simp only [run_all, toFilenames] at h
  rw [if_neg (by omega)] at h
  cases ho : outputDirStep cfg fs with
  | error e => rw [ho] at h; simp at h
  | ok fs1 =>
    rw [ho] at h
    simp only at h
    cases hs : summaryStep cfg files.length fs1 with
    | error e => rw [hs] at h; simp at h
    | ok pr =>
      rw [hs] at h
      obtain ⟨sp, fs2⟩ := pr
      simp only at h
      cases hl : runLoop cfg fs2 files with
      | mk fs3 res =>
        rw [hl] at h
        cases res with
        | error e => simp at h
        | ok dfsfig =>
          obtain ⟨dfs, fig⟩ := dfsfig
          simp only at h
          have hlen : dfs.length = files.length :=
            ((runLoop_ok_spec cfg fs2 fs3 files dfs fig hl).length_eq).symm
          rw [if_pos (by omega)] at h
          obtain ⟨hsp, -⟩ := summaryStep_ok_inv cfg files.length fs1 (sp, fs2) hn hs
          simp only at hsp
          subst hsp
          simp only [Prod.mk.injEq, Except.ok.injEq] at h
          obtain ⟨hfs', ho'⟩ := h
          exact ⟨fs1, fs2, fs3, dfs, fig, rfl, hs, hl, ho'.symm, hlen, hfs'.symm⟩

/-- C2: when a batch of more than one file succeeds, the aggregate result
is a single combined table written to the summary path, it has a "file"
column, and every row carries (in that column) the filename of the source
file the row came from. -/
theorem run_all_summary_provenance (files : List String) (cfg : RunConfig) (fs fs' : FS)
    (o : Option Fig) (hn : 1 < files.length)
    (h : run_all (FileArg.list files) cfg fs = (fs', Except.ok o)) :
    ∃ T : DF, fs'.lookup (summaryPathOf cfg) = some (Entry.file (FileData.table T)) ∧
      T.cols[3]? = some "file" ∧
      ∀ row ∈ T.rows, ∃ f ∈ files, ∃ rings,
        row[3]? = some (Cell.str f) ∧ row ∈ (taggedTable f rings).rows := by
  obtain ⟨fs1, fs2, fs3, dfs, fig, ho, hs, hl, ho2, hlen, hfs'⟩ :=
    run_all_ok_inv files cfg fs fs' o hn h
  have hfa := runLoop_ok_spec cfg fs2 fs3 files dfs fig hl
  refine ⟨DF.concat dfs, ?_, ?_, ?_⟩
  · rw [hfs', lookup_write, if_pos rfl]
  · cases files with
    | nil => simp at hn
    | cons f0 frest =>
      cases dfs with
      | nil => simp at hlen
      | cons d0 drest =>
        obtain ⟨rings0, hd0⟩ := (List.forall₂_cons.mp hfa).1
        simp only [DF.concat, List.map_cons, List.head?_cons, Option.getD_some]
        rw [hd0, taggedTable_cols]
        rfl
  · intro row hrow
    simp only [DF.concat, List.mem_flatten, List.mem_map] at hrow
    obtain ⟨l, ⟨df, hdf, rfl⟩, hrl⟩ := hrow
    obtain ⟨f, hffiles, rings, rfl⟩ := forall₂_mem_right hfa hdf
    exact ⟨f, hffiles, rings, taggedTable_row_file f rings row hrl, hrl⟩

/-- C6: when a batch of more than one file succeeds, the rows of the
aggregate summary table are the per-file rows concatenated in the order
the input files were given: the table equals the flattening, in input
order, of the (tagged) per-file tables. -/
theorem run_all_summary_order (files : List String) (cfg : RunConfig) (fs fs' : FS)
    (o : Option Fig) (hn : 1 < files.length)
    (h : run_all (FileArg.list files) cfg fs = (fs', Except.ok o)) :
    ∃ (T : DF) (dfs : List DF),
      fs'.lookup (summaryPathOf cfg) = some (Entry.file (FileData.table T)) ∧
      List.Forall₂ (fun f df => ∃ rings, df = taggedTable f rings) files dfs ∧
      T.rows = (dfs.map DF.rows).flatten := by
  obtain ⟨fs1, fs2, fs3, dfs, fig, ho, hs, hl, ho2, hlen, hfs'⟩ :=
    run_all_ok_inv files cfg fs fs' o hn h
  exact ⟨DF.concat dfs, dfs, by rw [hfs', lookup_write, if_pos rfl],
    runLoop_ok_spec cfg fs2 fs3 files dfs fig hl, rfl⟩

theorem processFile_written_table_witness :
    processFile cfgOut (fsOneGood.mkdir "out") "a.xyz" =
      ((processFile cfgOut (fsOneGood.mkdir "out") "a.xyz").1,
        Except.ok (taggedTable "a.xyz" [ringTen],
          { df := { source := "a.xyz", rings := [ringTen] } })) ∧
    ∃ rings,
      (processFile cfgOut (fsOneGood.mkdir "out") "a.xyz").1.lookup
          (filePathXlsx cfgOut "a.xyz") =
        some (Entry.file (FileData.table (perFileTable "a.xyz" rings))) ∧
      (perFileTable "a.xyz" rings).cols = ["id", "size", "ellipticity", "file"] ∧
      (perFileTable "a.xyz" rings).rows.length = rings.length ∧
      (∀ row ∈ (perFileTable "a.xyz" rings).rows, row[3]? = some (Cell.str "a.xyz")) := by
  have h2 : (processFile cfgOut (fsOneGood.mkdir "out") "a.xyz").2 =
      Except.ok (taggedTable "a.xyz" [ringTen],
        { df := { source := "a.xyz", rings := [ringTen] } }) := by
    norm_num +decide [processFile, _file_check, resolvedName, os_path_split_fst,
      os_path_basename, os_path_join, startsWithSlash, endsWithSlash, os_remove,
      get_macrocycles, get_ellipticity, plot_results, FS.pathExists, FS.lookup, FS.isDir,
      FS.mkdir, FS.write, FS.remove, lookupEntry, removeEntry, fsOneGood, cfgOut,
      defaultConfig, keepRing, aspectOK, covXX, covYY, covXY, meanX, meanY, ringTen,
      ringEllipticity, DF.setCol, findColIdx, List.filter, taggedTable, perFileTable]
  have hp : processFile cfgOut (fsOneGood.mkdir "out") "a.xyz" =
      ((processFile cfgOut (fsOneGood.mkdir "out") "a.xyz").1,
        Except.ok (taggedTable "a.xyz" [ringTen],
          { df := { source := "a.xyz", rings := [ringTen] } })) := by
    rw [← h2]
  exact ⟨hp, processFile_written_table cfgOut (fsOneGood.mkdir "out") _ "a.xyz" _ _ hp⟩

theorem run_all_summary_provenance_witness :
    (1 < (["a.xyz", "b.xyz"] : List String).length) ∧
    run_all (FileArg.list ["a.xyz", "b.xyz"]) cfgOut fsTwoGood =
      ((run_all (FileArg.list ["a.xyz", "b.xyz"]) cfgOut fsTwoGood).1, Except.ok none) ∧
    (∃ T : DF,
      (run_all (FileArg.list ["a.xyz", "b.xyz"]) cfgOut fsTwoGood).1.lookup
          (summaryPathOf cfgOut) = some (Entry.file (FileData.table T)) ∧
      T.cols[3]? = some "file" ∧
      ∀ row ∈ T.rows, ∃ f ∈ (["a.xyz", "b.xyz"] : List String), ∃ rings,
        row[3]? = some (Cell.str f) ∧ row ∈ (taggedTable f rings).rows) := by
  have h2 : (run_all (FileArg.list ["a.xyz", "b.xyz"]) cfgOut fsTwoGood).2 =
      Except.ok none := by
    norm_num +decide [run_all, runLoop, processFile, _file_check, resolvedName,
      os_path_split_fst, os_path_basename, os_path_join, startsWithSlash, endsWithSlash,
      splitOnChar, out_ext_of, summaryStep, outputDirStep, os_remove, get_macrocycles,
      get_ellipticity, plot_results, toFilenames, FS.pathExists, FS.lookup, FS.isDir,
      FS.mkdir, FS.write, FS.remove, lookupEntry, removeEntry, fsTwoGood, cfgOut,
      defaultConfig, keepRing, aspectOK, covXX, covYY, covXY, meanX, meanY, ringTen,
      ringEllipticity, DF.setCol, findColIdx, DF.concat, List.filter]
  have hp : run_all (FileArg.list ["a.xyz", "b.xyz"]) cfgOut fsTwoGood =
      ((run_all (FileArg.list ["a.xyz", "b.xyz"]) cfgOut fsTwoGood).1, Except.ok none) := by
    rw [← h2]
  exact ⟨by decide, hp,
    run_all_summary_provenance ["a.xyz", "b.xyz"] cfgOut fsTwoGood _ none (by decide) hp⟩

theorem run_all_summary_order_witness :
    (1 < (["b.xyz", "a.xyz"] : List String).length) ∧
    run_all (FileArg.list ["b.xyz", "a.xyz"]) cfgOut fsTwoGood =
      ((run_all (FileArg.list ["b.xyz", "a.xyz"]) cfgOut fsTwoGood).1, Except.ok none) ∧
    (∃ (T : DF) (dfs : List DF),
      (run_all (FileArg.list ["b.xyz", "a.xyz"]) cfgOut fsTwoGood).1.lookup
          (summaryPathOf cfgOut) = some (Entry.file (FileData.table T)) ∧
      List.Forall₂ (fun f df => ∃ rings, df = taggedTable f rings)
        ["b.xyz", "a.xyz"] dfs ∧
      T.rows = (dfs.map DF.rows).flatten) := by
  have h2 : (run_all (FileArg.list ["b.xyz", "a.xyz"]) cfgOut fsTwoGood).2 =
      Except.ok none := by
    norm_num +decide [run_all, runLoop, processFile, _file_check, resolvedName,
      os_path_split_fst, os_path_basename, os_path_join, startsWithSlash, endsWithSlash,
      splitOnChar, out_ext_of, summaryStep, outputDirStep, os_remove, get_macrocycles,
      get_ellipticity, plot_results, toFilenames, FS.pathExists, FS.lookup, FS.isDir,
      FS.mkdir, FS.write, FS.remove, lookupEntry, removeEntry, fsTwoGood, cfgOut,
      defaultConfig, keepRing, aspectOK, covXX, covYY, covXY, meanX, meanY, ringTen,
      ringEllipticity, DF.setCol, findColIdx, DF.concat, List.filter]
  have hp : run_all (FileArg.list ["b.xyz", "a.xyz"]) cfgOut fsTwoGood =
      ((run_all (FileArg.list ["b.xyz", "a.xyz"]) cfgOut fsTwoGood).1, Except.ok none) := by
    rw [← h2]
  exact ⟨by decide, hp,
    run_all_summary_order ["b.xyz", "a.xyz"] cfgOut fsTwoGood _ none (by decide) hp⟩

/-! ## Claim C7: the ellipticity scalar on circular and stretched rings -/

theorem meanX_scaleX (t : ℚ) (pts : List Pt) : meanX (scaleX t pts) = t * meanX pts := by
  simp only [meanX, scaleX, List.map_map, List.length_map]
  rw [show (Prod.fst ∘ fun p : Pt => (t * p.1, p.2)) = fun p : Pt => t * p.1 from rfl]
  rw [show (fun p : Pt => t * p.1) = fun p : Pt => t * Prod.fst p from rfl]
  rw [List.sum_map_mul_left, mul_div_assoc]

theorem meanY_scaleX (t : ℚ) (pts : List Pt) : meanY (scaleX t pts) = meanY pts := by
  simp only [meanY, scaleX, List.map_map, List.length_map]
  rfl

theorem covXX_scaleX (t : ℚ) (pts : List Pt) :
    covXX (scaleX t pts) = t ^ 2 * covXX pts := by
  unfold covXX
  rw [meanX_scaleX]
  simp only [scaleX, List.map_map, List.length_map]
  rw [show ((fun p : Pt => (p.1 - t * meanX pts) ^ 2) ∘ fun p : Pt => (t * p.1, p.2)) =
      fun p : Pt => t ^ 2 * ((fun q : Pt => (q.1 - meanX pts) ^ 2) p) from by
    funext p; simp; ring]
  rw [List.sum_map_mul_left, mul_div_assoc]

theorem covYY_scaleX (t : ℚ) (pts : List Pt) : covYY (scaleX t pts) = covYY pts := by
  unfold covYY
  rw [meanY_scaleX]
  simp only [scaleX, List.map_map, List.length_map]
  rfl

theorem covXY_scaleX (t : ℚ) (pts : List Pt) :
    covXY (scaleX t pts) = t * covXY pts := by
  unfold covXY
  rw [meanX_scaleX, meanY_scaleX]
  simp only [scaleX, List.map_map, List.length_map]
  rw [show ((fun p : Pt => (p.1 - t * meanX pts) * (p.2 - meanY pts)) ∘
        fun p : Pt => (t * p.1, p.2)) =
      fun p : Pt => t * ((fun q : Pt => (q.1 - meanX pts) * (q.2 - meanY pts)) p) from by
    funext p; simp; ring]
  rw [List.sum_map_mul_left, mul_div_assoc]

/-- C7: on a ring whose atoms form a circular (isotropic) configuration —
equal in-plane variances and zero in-plane covariance, as holds for every
exact regular polygon — the ellipticity scalar of `get_ellipticity` is 0;
and scaling the same point set anisotropically along one in-plane axis
makes the ellipticity strictly increase with the stretch factor. -/
theorem ringEllipticity_circle_and_stretch (pts : List Pt)
    (hiso : covXX pts = covYY pts) (hmix : covXY pts = 0) (hpos : 0 < covXX pts) :
    ringEllipticity pts = 0 ∧
    ∀ t u : ℚ, 1 ≤ t → t < u →
      ringEllipticity (scaleX t pts) < ringEllipticity (scaleX u pts) := by
  constructor
  · simp [ringEllipticity, hiso, hmix]
  · intro t u ht htu
    have hform : ∀ s : ℚ, ringEllipticity (scaleX s pts) =
        (s ^ 2 - 1) ^ 2 / (s ^ 2 + 1) ^ 2 := by
      intro s
      have ha : covXX pts ≠ 0 := ne_of_gt hpos
      rw [ringEllipticity, covXX_scaleX, covYY_scaleX, covXY_scaleX, hmix, ← hiso]
      rw [show (s ^ 2 * covXX pts - covXX pts) ^ 2 + 4 * (s * 0) ^ 2 =
          covXX pts ^ 2 * ((s ^ 2 - 1) ^ 2) from by ring]
      rw [show (s ^ 2 * covXX pts + covXX pts) ^ 2 =
          covXX pts ^ 2 * ((s ^ 2 + 1) ^ 2) from by ring]
      exact mul_div_mul_left _ _ (pow_ne_zero 2 ha)
    rw [hform t, hform u]
    have hu : (1 : ℚ) < u := lt_of_le_of_lt ht htu
    have htt : t ^ 2 < u ^ 2 := by nlinarith
    have ht1 : 1 ≤ t ^ 2 := by nlinarith
    rw [div_lt_div_iff₀ (by positivity) (by positivity)]
    have h1 : 0 ≤ (t ^ 2 - 1) * (u ^ 2 + 1) := by nlinarith
    have h2 : (t ^ 2 - 1) * (u ^ 2 + 1) < (u ^ 2 - 1) * (t ^ 2 + 1) := by nlinarith
    have h3 := mul_self_lt_mul_self h1 h2
    calc (t ^ 2 - 1) ^ 2 * (u ^ 2 + 1) ^ 2
        = (t ^ 2 - 1) * (u ^ 2 + 1) * ((t ^ 2 - 1) * (u ^ 2 + 1)) := by ring
      _ < (u ^ 2 - 1) * (t ^ 2 + 1) * ((u ^ 2 - 1) * (t ^ 2 + 1)) := h3
      _ = (u ^ 2 - 1) ^ 2 * (t ^ 2 + 1) ^ 2 := by ring

theorem ringEllipticity_circle_and_stretch_witness :
    covXX squareRing = covYY squareRing ∧ covXY squareRing = 0 ∧ 0 < covXX squareRing ∧
    ringEllipticity squareRing = 0 ∧
    ringEllipticity (scaleX 1 squareRing) < ringEllipticity (scaleX 2 squareRing) := by
  have h1 : covXX squareRing = covYY squareRing := by
    norm_num [covXX, covYY, meanX, meanY, squareRing]
  have h2 : covXY squareRing = 0 := by
    norm_num [covXY, meanX, meanY, squareRing]
  have h3 : 0 < covXX squareRing := by
    norm_num [covXX, meanX, squareRing]
  have hm := ringEllipticity_circle_and_stretch squareRing h1 h2 h3
  exact ⟨h1, h2, h3, hm.1, hm.2 1 2 le_rfl (by norm_num)⟩

/-! ## Claim C3: determinism machinery -/

theorem eqOn_mono {fs1 fs2 : FS} {P Q : String → Prop} (h : EqOn fs1 fs2 Q)
    (hsub : ∀ p, P p → Q p) : EqOn fs1 fs2 P :=
  fun p hp => h p (hsub p hp)

theorem isDir_congr {fs1 fs2 : FS} {p : String} (h : fs1.lookup p = fs2.lookup p) :
    fs1.isDir p = fs2.isDir p := by
  unfold FS.isDir
  rw [h]

theorem pathExists_congr {fs1 fs2 : FS} {p : String} (h : fs1.lookup p = fs2.lookup p) :
    fs1.pathExists p = fs2.pathExists p := by
  unfold FS.pathExists
  rw [h]

theorem lookup_eq_none_of_not_exists {fs : FS} {p : String}
    (h : fs.pathExists p = false) : fs.lookup p = none := by
  unfold FS.pathExists at h
  exact Option.not_isSome_iff_eq_none.mp (by simp [h])

theorem isDir_lookup {fs : FS} {p : String} (h : fs.isDir p = true) :
    fs.lookup p = some Entry.dir := by
  unfold FS.isDir at h
  split at h
  · next heq => exact heq
  · simp at h

theorem get_macrocycles_congr {fs1 fs2 : FS} {f : String} (cfg : RunConfig)
    (h : fs1.lookup f = fs2.lookup f) :
    get_macrocycles fs1 f cfg = get_macrocycles fs2 f cfg := by
  unfold get_macrocycles
  rw [h]

theorem fileCheck_ok_cases (n d : String) (ow : Bool) (fs : FS) (pr : String × FS)
    (h : _file_check n d ow fs = Except.ok pr) :
    pr.1 = resolvedName d n ∧
    ((fs.pathExists (resolvedName d n) = false ∧ pr.2 = fs) ∨
     (fs.pathExists (resolvedName d n) = true ∧
       pr.2 = fs.remove (resolvedName d n))) := by
  simp only [_file_check] at h
  by_cases hex : fs.pathExists (resolvedName d n) = true
  · rw [if_pos hex] at h
    cases ow with
    | false => simp at h
    | true =>
      simp only [Bool.not_true, Bool.false_eq_true, if_false] at h
      cases hrem : os_remove fs (resolvedName d n) with
      | error e => rw [hrem] at h; simp at h
      | ok g =>
        rw [hrem] at h
        simp only [Except.ok.injEq] at h
        subst h
        exact ⟨rfl, Or.inr ⟨hex, os_remove_ok_inv fs _ g hrem⟩⟩
  · rw [if_neg hex] at h
    simp only [Except.ok.injEq] at h
    subst h
    exact ⟨rfl, Or.inl ⟨by simpa using hex, rfl⟩⟩

theorem fileCheck_eqOn {n d : String} {ow : Bool} {fs1 fs2 g1 g2 : FS} {p1 p2 : String}
    {P : String → Prop} (hagree : EqOn fs1 fs2 P)
    (h1 : _file_check n d ow fs1 = Except.ok (p1, g1))
    (h2 : _file_check n d ow fs2 = Except.ok (p2, g2)) :
    p1 = resolvedName d n ∧ p2 = resolvedName d n ∧ EqOn g1 g2 P := by
  obtain ⟨hp1, hc1⟩ := fileCheck_ok_cases n d ow fs1 (p1, g1) h1
  obtain ⟨hp2, hc2⟩ := fileCheck_ok_cases n d ow fs2 (p2, g2) h2
  refine ⟨hp1, hp2, ?_⟩
  intro q hq
  rcases hc1 with ⟨he1, rfl⟩ | ⟨he1, rfl⟩ <;> rcases hc2 with ⟨he2, rfl⟩ | ⟨he2, rfl⟩
  · exact hagree q hq
  · by_cases hqr : q = resolvedName d n
    · subst hqr
      rw [lookup_remove, if_pos rfl, lookup_eq_none_of_not_exists he1]
    · rw [lookup_remove, if_neg hqr]
      exact hagree q hq
  · by_cases hqr : q = resolvedName d n
    · subst hqr
      rw [lookup_remove, if_pos rfl, lookup_eq_none_of_not_exists he2]
    · rw [lookup_remove, if_neg hqr]
      exact hagree q hq
  · by_cases hqr : q = resolvedName d n
    · subst hqr
      rw [lookup_remove, if_pos rfl, lookup_remove, if_pos rfl]
    · rw [lookup_remove, if_neg hqr, lookup_remove, if_neg hqr]
      exact hagree q hq

theorem outputDirStep_ok_cases (cfg : RunConfig) (fs g : FS)
    (h : outputDirStep cfg fs = Except.ok g) :
    (fs.isDir cfg.output_dir = true ∧ g = fs) ∨
    (g = (fs.remove cfg.output_dir).mkdir cfg.output_dir) ∨
    (fs.pathExists cfg.output_dir = false ∧ g = fs.mkdir cfg.output_dir) := by
  simp only [outputDirStep] at h
  by_cases hex : fs.pathExists cfg.output_dir = true
  · rw [if_pos hex] at h
    by_cases hdir : fs.isDir cfg.output_dir = true
    · rw [hdir] at h
      simp only [Bool.not_true, Bool.false_eq_true, if_false, Except.ok.injEq] at h
      exact Or.inl ⟨hdir, h.symm⟩
    · have hdir' : fs.isDir cfg.output_dir = false := by
        simpa using hdir
      rw [hdir'] at h
      simp only [Bool.not_false, if_true] at h
      cases how : cfg.overwrite with
      | false => rw [how] at h; simp at h
      | true =>
        rw [how] at h
        simp only [Bool.not_true, Bool.false_eq_true, if_false] at h
        cases hrem : os_remove fs cfg.output_dir with
        | error e => rw [hrem] at h; simp at h
        | ok g0 =>
          rw [hrem] at h
          simp only [Except.ok.injEq] at h
          refine Or.inr (Or.inl ?_)
          rw [← h, os_remove_ok_inv fs _ g0 hrem]
  · rw [if_neg hex] at h
    simp only [Except.ok.injEq] at h
    exact Or.inr (Or.inr ⟨by simpa using hex, h.symm⟩)

theorem outputDirStep_eqOn {cfg : RunConfig} {fs1 fs2 g1 g2 : FS} {P : String → Prop}
    (hagree : EqOn fs1 fs2 P)
    (h1 : outputDirStep cfg fs1 = Except.ok g1)
    (h2 : outputDirStep cfg fs2 = Except.ok g2) : EqOn g1 g2 P := by
  intro q hq
  have hc1 := outputDirStep_ok_cases cfg fs1 g1 h1
  have hc2 := outputDirStep_ok_cases cfg fs2 g2 h2
  by_cases hqd : q = cfg.output_dir
  · have l1 : g1.lookup q = some Entry.dir := by
      rcases hc1 with ⟨hdir, rfl⟩ | hc1' | ⟨hex, rfl⟩
      · rw [hqd]
        exact isDir_lookup hdir
      · rw [hc1', lookup_mkdir, if_pos hqd]
      · rw [lookup_mkdir, if_pos hqd]
    have l2 : g2.lookup q = some Entry.dir := by
      rcases hc2 with ⟨hdir, rfl⟩ | hc2' | ⟨hex, rfl⟩
      · rw [hqd]
        exact isDir_lookup hdir
      · rw [hc2', lookup_mkdir, if_pos hqd]
      · rw [lookup_mkdir, if_pos hqd]
    rw [l1, l2]
  · have l1 : g1.lookup q = fs1.lookup q := by
      rcases hc1 with ⟨-, rfl⟩ | hc1' | ⟨-, rfl⟩
      · rfl
      · rw [hc1', lookup_mkdir, if_neg hqd, lookup_remove, if_neg hqd]
      · rw [lookup_mkdir, if_neg hqd]
    have l2 : g2.lookup q = fs2.lookup q := by
      rcases hc2 with ⟨-, rfl⟩ | hc2' | ⟨-, rfl⟩
      · rfl
      · rw [hc2', lookup_mkdir, if_neg hqd, lookup_remove, if_neg hqd]
      · rw [lookup_mkdir, if_neg hqd]
    rw [l1, l2]
    exact hagree q hq

theorem processFile_eqOn {cfg : RunConfig} {fs1 fs2 g1 g2 : FS} {f : String}
    {r1 r2 : DF × Fig} {P : String → Prop}
    (hagree : EqOn fs1 fs2 P) (hf : P f)
    (h1 : processFile cfg fs1 f = (g1, Except.ok r1))
    (h2 : processFile cfg fs2 f = (g2, Except.ok r2)) :
    r1 = r2 ∧
    EqOn g1 g2 (fun q => P q ∨ q = filePathXlsx cfg f ∨ q = filePathHtml cfg f) := by
  simp only [processFile] at h1 h2
  cases hc1 : _file_check (os_path_basename f ++ ".xlsx") cfg.output_dir cfg.overwrite fs1 with
  | error e => rw [hc1] at h1; simp at h1
  | ok pr1 =>
    rw [hc1] at h1
    obtain ⟨x1, fsa1⟩ := pr1
    simp only at h1
    cases hc2 : _file_check (os_path_basename f ++ ".xlsx") cfg.output_dir cfg.overwrite fs2 with
    | error e => rw [hc2] at h2; simp at h2
    | ok pr2 =>
      rw [hc2] at h2
      obtain ⟨x2, fsa2⟩ := pr2
      simp only at h2
      obtain ⟨hx1, hx2, hagreeA⟩ := fileCheck_eqOn hagree hc1 hc2
      cases hd1 : _file_check (os_path_basename f ++ ".html") cfg.output_dir cfg.overwrite fsa1 with
      | error e => rw [hd1] at h1; simp at h1
      | ok qr1 =>
        rw [hd1] at h1
        obtain ⟨y1, fsb1⟩ := qr1
        simp only at h1
        cases hd2 : _file_check (os_path_basename f ++ ".html") cfg.output_dir cfg.overwrite fsa2 with
        | error e => rw [hd2] at h2; simp at h2
        | ok qr2 =>
          rw [hd2] at h2
          obtain ⟨y2, fsb2⟩ := qr2
          simp only at h2
          obtain ⟨hy1, hy2, hagreeB⟩ := fileCheck_eqOn hagreeA hd1 hd2
          have hread : get_macrocycles fsb1 f cfg = get_macrocycles fsb2 f cfg :=
            get_macrocycles_congr cfg (hagreeB f hf)
          cases hm1 : get_macrocycles fsb1 f cfg with
          | error e => rw [hm1] at h1; simp at h1
          | ok atom_df =>
            rw [hm1] at h1
            have hm2 : get_macrocycles fsb2 f cfg = Except.ok atom_df :=
              hread.symm.trans hm1
            rw [hm2] at h2
            simp only [plot_results, Prod.mk.injEq] at h1 h2
            obtain ⟨hg1, hr1⟩ := h1
            obtain ⟨hg2, hr2⟩ := h2
            simp only [Except.ok.injEq] at hr1 hr2
            constructor
            · rw [← hr1, ← hr2]
            · intro q hq
              rw [← hg1, ← hg2]
              have hxp : x1 = filePathXlsx cfg f := hx1
              have hxq : x2 = filePathXlsx cfg f := hx2
              have hyp : y1 = filePathHtml cfg f := hy1
              have hyq : y2 = filePathHtml cfg f := hy2
              subst hxp
              subst hxq
              subst hyp
              subst hyq
              simp only [lookup_write]
              by_cases hqy : q = filePathHtml cfg f
              · rw [if_pos hqy, if_pos hqy]
              · rw [if_neg hqy, if_neg hqy]
                by_cases hqx : q = filePathXlsx cfg f
                · rw [if_pos hqx, if_pos hqx]
                · rw [if_neg hqx, if_neg hqx]
                  rcases hq with hq | hq | hq
                  · exact hagreeB q hq
                  · exact absurd hq hqx
                  · exact absurd hq hqy

theorem summaryStep_eqOn {cfg : RunConfig} {n : Nat} {fs1 fs2 : FS}
    {pr1 pr2 : Option String × FS} {P : String → Prop} (hagree : EqOn fs1 fs2 P)
    (h1 : summaryStep cfg n fs1 = Except.ok pr1)
    (h2 : summaryStep cfg n fs2 = Except.ok pr2) :
    pr1.1 = pr2.1 ∧ EqOn pr1.2 pr2.2 P := by
  simp only [summaryStep] at h1 h2
  by_cases hn : 1 < n
  · rw [if_pos hn] at h1 h2
    by_cases hxt : (out_ext_of cfg.summary_file = "xlsx" ∨ out_ext_of cfg.summary_file = "csv")
    · rw [if_pos hxt] at h1 h2
      cases hf1 : _file_check cfg.summary_file cfg.output_dir cfg.overwrite fs1 with
      | error e => rw [hf1] at h1; simp at h1
      | ok q1 =>
        rw [hf1] at h1
        obtain ⟨s1, t1⟩ := q1
        cases hf2 : _file_check cfg.summary_file cfg.output_dir cfg.overwrite fs2 with
        | error e => rw [hf2] at h2; simp at h2
        | ok q2 =>
          rw [hf2] at h2
          obtain ⟨s2, t2⟩ := q2
          simp only [Except.ok.injEq] at h1 h2
          subst h1
          subst h2
          obtain ⟨hs1, hs2, he⟩ := fileCheck_eqOn hagree hf1 hf2
          exact ⟨by simp [hs1, hs2], he⟩
    · rw [if_neg hxt] at h1
      simp at h1
  · rw [if_neg hn] at h1 h2
    simp only [Except.ok.injEq] at h1 h2
    subst h1
    subst h2
    exact ⟨rfl, hagree⟩

theorem runLoop_eqOn {cfg : RunConfig} (files : List String) {fs1 fs2 g1 g2 : FS}
    {r1 r2 : List DF × Option Fig} {P : String → Prop}
    (hagree : EqOn fs1 fs2 P) (hfiles : ∀ f ∈ files, P f)
    (h1 : runLoop cfg fs1 files = (g1, Except.ok r1))
    (h2 : runLoop cfg fs2 files = (g2, Except.ok r2)) :
    r1 = r2 ∧ EqOn g1 g2 (fun q => P q ∨
      ∃ f ∈ files, q = filePathXlsx cfg f ∨ q = filePathHtml cfg f) := by
  induction files generalizing fs1 fs2 g1 g2 r1 r2 P with
  | nil =>
    simp only [runLoop, Prod.mk.injEq] at h1 h2
    obtain ⟨rfl, h1'⟩ := h1
    obtain ⟨rfl, h2'⟩ := h2
    simp only [Except.ok.injEq] at h1' h2'
    subst h1'
    subst h2'
    refine ⟨rfl, eqOn_mono hagree ?_⟩
    intro p hp
    rcases hp with hp | ⟨f, hf, -⟩
    · exact hp
    · simp at hf
  | cons f rest ih =>
    simp only [runLoop] at h1 h2
    cases hp1 : processFile cfg fs1 f with
    | mk fsa1 res1 =>
      rw [hp1] at h1
      cases res1 with
      | error e => simp at h1
      | ok d1 =>
        simp only at h1
        cases hl1 : runLoop cfg fsa1 rest with
        | mk fsb1 res1' =>
          rw [hl1] at h1
          cases res1' with
          | error e => simp at h1
          | ok dd1 =>
            simp only [Prod.mk.injEq, Except.ok.injEq] at h1
            obtain ⟨rfl, rfl⟩ := h1
            cases hp2 : processFile cfg fs2 f with
            | mk fsa2 res2 =>
              rw [hp2] at h2
              cases res2 with
              | error e => simp at h2
              | ok d2 =>
                simp only at h2
                cases hl2 : runLoop cfg fsa2 rest with
                | mk fsb2 res2' =>
                  rw [hl2] at h2
                  cases res2' with
                  | error e => simp at h2
                  | ok dd2 =>
                    simp only [Prod.mk.injEq, Except.ok.injEq] at h2
                    obtain ⟨rfl, rfl⟩ := h2
                    obtain ⟨hd, hagree1⟩ := processFile_eqOn hagree
                      (hfiles f (List.mem_cons_self f rest)) hp1 hp2
                    have hfiles1 : ∀ f' ∈ rest, (fun q => P q ∨ q = filePathXlsx cfg f ∨
                        q = filePathHtml cfg f) f' :=
                      fun f' hf' => Or.inl (hfiles f' (List.mem_cons_of_mem f hf'))
                    obtain ⟨hdd, hagree2⟩ := ih hagree1 hfiles1 hl1 hl2
                    subst hd
                    subst hdd
                    refine ⟨rfl, eqOn_mono hagree2 ?_⟩
                    intro p hp
                    rcases hp with hp | ⟨f', hf', hp⟩
                    · exact Or.inl (Or.inl hp)
                    · rcases List.mem_cons.mp hf' with rfl | hf''
                      · exact Or.inl (Or.inr hp)
                      · exact Or.inr ⟨f', hf'', hp⟩

theorem run_all_ok_single_inv (files : List String) (cfg : RunConfig) (fs fs' : FS)
    (o : Option Fig) (hn : files.length = 1)
    (h : run_all (FileArg.list files) cfg fs = (fs', Except.ok o)) :
    ∃ fs1 fs3 dfs fig,
      outputDirStep cfg fs = Except.ok fs1 ∧
      runLoop cfg fs1 files = (fs3, Except.ok (dfs, fig)) ∧
      o = fig ∧ fs' = fs3 := by
  simp only [run_all, toFilenames] at h
  rw [if_neg (by omega)] at h
  cases ho : outputDirStep cfg fs with
  | error e => rw [ho] at h; simp at h
  | ok fs1 =>
    rw [ho] at h
    simp only at h
    rw [hn] at h
    rw [show summaryStep cfg 1 fs1 = Except.ok (none, fs1) from by simp [summaryStep]] at h
    simp only at h
    cases hl : runLoop cfg fs1 files with
    | mk fs3 res =>
      rw [hl] at h
      cases res with
      | error e => simp at h
      | ok dfsfig =>
        obtain ⟨dfs, fig⟩ := dfsfig
        simp only at h
        have hlen : dfs.length = files.length :=
          ((runLoop_ok_spec cfg fs1 fs3 files dfs fig hl).length_eq).symm
        rw [if_neg (by omega)] at h
        simp only [Prod.mk.injEq, Except.ok.injEq] at h
        obtain ⟨rfl, rfl⟩ := h
        exact ⟨fs1, fs3, dfs, fig, rfl, hl, rfl, rfl⟩

/-- C3: `run_all` is deterministic in the input files and configuration:
two successful runs with the same file list and configuration, over
filesystems that agree on the contents of the input files, return the
same value and write identical ellipticity tables — the per-file
spreadsheet entries and (for a batch of more than one file) the summary
spreadsheet entry coincide. -/
theorem run_all_deterministic (files : List String) (cfg : RunConfig)
    (fs1 fs2 fs1' fs2' : FS) (o1 o2 : Option Fig)
    (hagree : ∀ f ∈ files, fs1.lookup f = fs2.lookup f)
    (h1 : run_all (FileArg.list files) cfg fs1 = (fs1', Except.ok o1))
    (h2 : run_all (FileArg.list files) cfg fs2 = (fs2', Except.ok o2)) :
    o1 = o2 ∧
    (∀ f ∈ files, fs1'.lookup (filePathXlsx cfg f) = fs2'.lookup (filePathXlsx cfg f)) ∧
    (1 < files.length →
      fs1'.lookup (summaryPathOf cfg) = fs2'.lookup (summaryPathOf cfg)) := by
  have hagree0 : EqOn fs1 fs2 (fun q => q ∈ files) := fun p hp => hagree p hp
  rcases Nat.lt_or_ge 1 files.length with hlen | hlen
  · obtain ⟨a1, b1, c1, dfsA, figA, hoA, hsA, hlA, rfl, hlenA, rfl⟩ :=
      run_all_ok_inv files cfg fs1 fs1' o1 hlen h1
    obtain ⟨a2, b2, c2, dfsB, figB, hoB, hsB, hlB, rfl, hlenB, rfl⟩ :=
      run_all_ok_inv files cfg fs2 fs2' o2 hlen h2
    have e1 : EqOn a1 a2 (fun q => q ∈ files) := outputDirStep_eqOn hagree0 hoA hoB
    have e2 : EqOn b1 b2 (fun q => q ∈ files) := (summaryStep_eqOn e1 hsA hsB).2
    obtain ⟨hr, e3⟩ := runLoop_eqOn files e2 (fun f hf => hf) hlA hlB
    have hdfs : dfsA = dfsB := congrArg Prod.fst hr
    refine ⟨rfl, ?_, ?_⟩
    · intro f hf
      rw [lookup_write, lookup_write]
      by_cases hq : filePathXlsx cfg f = summaryPathOf cfg
      · rw [if_pos hq, if_pos hq, hdfs]
      · rw [if_neg hq, if_neg hq]
        exact e3 _ (Or.inr ⟨f, hf, Or.inl rfl⟩)
    · intro _
      rw [hdfs]
      rw [lookup_write, lookup_write]
      rw [if_pos rfl, if_pos rfl]
  · have hne : files.length ≠ 0 := by
      intro h0
      rw [show run_all (FileArg.list files) cfg fs1 =
          (fs1, Except.error (PyErr.valueError "No file(s) specified\n")) from by
        simp [run_all, toFilenames, h0]] at h1
      simp at h1
    have hlen1 : files.length = 1 := by omega
    obtain ⟨a1, c1, dfsA, figA, hoA, hlA, rfl, rfl⟩ :=
      run_all_ok_single_inv files cfg fs1 fs1' o1 hlen1 h1
    obtain ⟨a2, c2, dfsB, figB, hoB, hlB, rfl, rfl⟩ :=
      run_all_ok_single_inv files cfg fs2 fs2' o2 hlen1 h2
    have e1 : EqOn a1 a2 (fun q => q ∈ files) := outputDirStep_eqOn hagree0 hoA hoB
    obtain ⟨hr, e3⟩ := runLoop_eqOn files e1 (fun f hf => hf) hlA hlB
    refine ⟨congrArg Prod.snd hr, ?_, ?_⟩
    · intro f hf
      exact e3 _ (Or.inr ⟨f, hf, Or.inl rfl⟩)
    · intro hcontra
      omega

theorem run_all_deterministic_witness :
    (∀ f ∈ (["a.xyz", "b.xyz"] : List String),
      fsTwoGood.lookup f = fsTwoGoodJunk.lookup f) ∧
    ((none : Option Fig) = none ∧
      (∀ f ∈ (["a.xyz", "b.xyz"] : List String),
        (run_all (FileArg.list ["a.xyz", "b.xyz"]) cfgOut fsTwoGood).1.lookup
            (filePathXlsx cfgOut f) =
          (run_all (FileArg.list ["a.xyz", "b.xyz"]) cfgOut fsTwoGoodJunk).1.lookup
            (filePathXlsx cfgOut f)) ∧
      (1 < (["a.xyz", "b.xyz"] : List String).length →
        (run_all (FileArg.list ["a.xyz", "b.xyz"]) cfgOut fsTwoGood).1.lookup
            (summaryPathOf cfgOut) =
          (run_all (FileArg.list ["a.xyz", "b.xyz"]) cfgOut fsTwoGoodJunk).1.lookup
            (summaryPathOf cfgOut))) := by
  have hag : ∀ f ∈ (["a.xyz", "b.xyz"] : List String),
      fsTwoGood.lookup f = fsTwoGoodJunk.lookup f := by
    intro f hf
    rcases List.mem_cons.mp hf with rfl | hf'
    · rfl
    · rcases List.mem_cons.mp hf' with rfl | hf''
      · rfl
      · simp at hf''
  have hA : run_all (FileArg.list ["a.xyz", "b.xyz"]) cfgOut fsTwoGood =
      ((run_all (FileArg.list ["a.xyz", "b.xyz"]) cfgOut fsTwoGood).1, Except.ok none) := by
    have h2 : (run_all (FileArg.list ["a.xyz", "b.xyz"]) cfgOut fsTwoGood).2 =
        Except.ok none := by
      norm_num +decide [run_all, runLoop, processFile, _file_check, resolvedName,
        os_path_split_fst, os_path_basename, os_path_join, startsWithSlash, endsWithSlash,
        splitOnChar, out_ext_of, summaryStep, outputDirStep, os_remove, get_macrocycles,
        get_ellipticity, plot_results, toFilenames, FS.pathExists, FS.lookup, FS.isDir,
        FS.mkdir, FS.write, FS.remove, lookupEntry, removeEntry, fsTwoGood, cfgOut,
        defaultConfig, keepRing, aspectOK, covXX, covYY, covXY, meanX, meanY, ringTen,
        ringEllipticity, DF.setCol, findColIdx, DF.concat, List.filter]
    rw [← h2]
  have hB : run_all (FileArg.list ["a.xyz", "b.xyz"]) cfgOut fsTwoGoodJunk =
      ((run_all (FileArg.list ["a.xyz", "b.xyz"]) cfgOut fsTwoGoodJunk).1,
        Except.ok none) := by
    have h2 : (run_all (FileArg.list ["a.xyz", "b.xyz"]) cfgOut fsTwoGoodJunk).2 =
        Except.ok none := by
      norm_num +decide [run_all, runLoop, processFile, _file_check, resolvedName,
        os_path_split_fst, os_path_basename, os_path_join, startsWithSlash, endsWithSlash,
        splitOnChar, out_ext_of, summaryStep, outputDirStep, os_remove, get_macrocycles,
        get_ellipticity, plot_results, toFilenames, FS.pathExists, FS.lookup, FS.isDir,
        FS.mkdir, FS.write, FS.remove, lookupEntry, removeEntry, fsTwoGoodJunk, fsTwoGood,
        cfgOut, defaultConfig, keepRing, aspectOK, covXX, covYY, covXY, meanX, meanY,
        ringTen, ringEllipticity, DF.setCol, findColIdx, DF.concat, List.filter]
    rw [← h2]
  exact ⟨hag, run_all_deterministic ["a.xyz", "b.xyz"] cfgOut fsTwoGood fsTwoGoodJunk
    _ _ none none hag hA hB⟩

end ElliptiCBn
